import Mathlib

/-!
Shallow embedding of the core of dono_server (src/src/youtube.rs and the
storage contract of src/src/main.rs), together with theorems checking the
natural-language specification against it.

Conventions used throughout:
- Rust strings are modelled as Lean String or List Char.  All universally
  quantified theorems about string-processing functions restrict to ASCII
  input (where Rust byte indices coincide with char indices and Rust
  char::is_numeric coincides with Char.isDigit); concrete counterexamples
  are ASCII except where the point is precisely a non-ASCII character.
- Rust code that can panic is modelled with Option: none is a panic.
- Fallible Rust code returning Result is modelled with Except Error.
- Rust i64 values are modelled as Int.  str::parse::<i64> is modelled with
  its overflow behaviour (out-of-range parses are an Err, which the source
  turns into 0 via unwrap_or), and every i64 addition and multiplication of
  the decoder is wrapped into [-2^63, 2^63) modulo 2^64 by wrap64, the
  two's-complement behaviour of the compiled program.
- Code of the repository that is not under src/ (src/error.rs, src/server.rs,
  src/database.rs and the sql/ files) is modelled from the spec; every such
  definition says so in its doc comment.
-/

namespace DonoServer

set_option maxRecDepth 8000

/-- Errors of the crate.  Modelled from the spec: src/error.rs is not part
of the sources given, so the variants are taken from their construction
sites in src/src/youtube.rs and from the spec's error taxonomy (section 7).
The rusqlite QueryReturnedNoRows error wrapped by Error::Sql — the spec's
NotFoundError for current/previous on an empty or singleton log — is
modelled as sqlNoRows; any other sqlite failure is sqlOther. -/
inductive Error where
  | invalidYoutubeUrl (url : String)
  | httpClient
  | httpResponse (status : Nat) (reason : String)
  | serialize
  | invalidYoutubeData
  | sqlNoRows
  | sqlOther
  deriving DecidableEq, Repr

/-! ## Duration decoder (fn from_iso8601, src/src/youtube.rs lines 197-211) -/

/-- Models str::parse applied to a digit list: the numeric value of the
decimal digits, most significant first. -/
def digitsVal (s : List Char) : Nat :=
  s.foldl (fun a c => a * 10 + (c.toNat - 48)) 0

/-- Models Rust str::parse::<i64>(...).unwrap_or(0) from the decoder's
parse closure (src/src/youtube.rs line 199): an optional sign followed by a
nonempty run of ASCII digits parses to its value if it fits in i64, and
every other input (empty, stray characters, out-of-range) yields 0. -/
def parseI64orZero (s : List Char) : Int :=
  match s with
  | [] => 0
  | c :: rest =>
      if c = '+' then
        if rest ≠ [] ∧ rest.all Char.isDigit ∧ digitsVal rest ≤ 2 ^ 63 - 1 then
          (digitsVal rest : Int)
        else 0
      else if c = '-' then
        if rest ≠ [] ∧ rest.all Char.isDigit ∧ digitsVal rest ≤ 2 ^ 63 then
          -(digitsVal rest : Int)
        else 0
      else
        if (c :: rest).all Char.isDigit ∧ digitsVal (c :: rest) ≤ 2 ^ 63 - 1 then
          (digitsVal (c :: rest) : Int)
        else 0

/-- Models Rust i64 two's-complement arithmetic: the value reduced into
[-2^63, 2^63) modulo 2^64.  Every i64 addition and multiplication of the
source is passed through this, operation by operation — the behaviour of
the compiled (release) program; a debug build panics at exactly the
operations whose wrap64 argument leaves the range, and the theorems below
only ever rely on overflow-free cases, where the two profiles agree and
wrap64 is the identity. -/
def wrap64 (x : Int) : Int :=
  (x + 2 ^ 63) % 2 ^ 64 - 2 ^ 63

/-- Models the Rust slice expression period[s + 1..e] (src/src/youtube.rs
line 199).  For ASCII input the char indices of the enumerate loop coincide
with Rust's byte indices; the slice panics (none) when s + 1 > e or e is out
of range, exactly as Rust string slicing does. -/
def iso8601Slice (period : List Char) (s e : Nat) : Option (List Char) :=
  if s + 1 ≤ e ∧ e ≤ period.length then
    some ((period.drop (s + 1)).take (e - (s + 1)))
  else none

/-- One step of the enumerate-fold of from_iso8601 (src/src/youtube.rs lines
200-209).  State none means an earlier step panicked.  Char.isDigit models
char::is_numeric (they agree on ASCII).  The source's i64 expressions
a + parse * 60 * 60, a + parse * 60 and a + parse wrap operation by
operation through wrap64, mirroring how each i64 multiplication and
addition is evaluated. -/
def iso8601Step (period : List Char) :
    Option (Int × Nat) → Nat × Char → Option (Int × Nat)
  | none, _ => none
  | some (a, p), (i, c) =>
      if c.isDigit then some (a, p)
      else if c = 'H' then
        (iso8601Slice period p i).map
          (fun s => (wrap64 (a + wrap64 (wrap64 (parseI64orZero s * 60) * 60)), i))
      else if c = 'M' then
        (iso8601Slice period p i).map
          (fun s => (wrap64 (a + wrap64 (parseI64orZero s * 60)), i))
      else if c = 'S' then
        (iso8601Slice period p i).map (fun s => (wrap64 (a + parseI64orZero s), i))
      else some (a, i)

/-- Model of fn from_iso8601 (src/src/youtube.rs lines 197-211): a fold over
the enumerated characters starting from (0, 0), returning the accumulated
seconds as an i64 value (every arithmetic step wraps via wrap64); none
models a panic of the slice expression. -/
def from_iso8601 (period : List Char) : Option Int :=
  (period.enum.foldl (iso8601Step period) (some (0, 0))).map Prod.fst

/-- One step of the spec's reference duration-decoding algorithm, written
from the spec's words (section 4.3): keep the digits seen since the last
boundary; on H/M/S parse them (a failed or empty parse counting as zero),
weight by 3600/60/1 and add to the running total, then advance the
boundary; every other character advances the boundary without
contributing. -/
def referenceStep : (Int × List Char) → Char → (Int × List Char)
  | (a, run), c =>
      if c.isDigit then (a, run ++ [c])
      else if c = 'H' then (a + parseI64orZero run * 3600, [])
      else if c = 'M' then (a + parseI64orZero run * 60, [])
      else if c = 'S' then (a + parseI64orZero run, [])
      else (a, [])

/-- The spec's reference duration decoder: a single left-to-right scan with
the step above, starting with an empty digit run and a zero total. -/
def referenceDecode (period : List Char) : Int :=
  (period.foldl referenceStep (0, [])).1

/-! ## URL identifier extractor (static PATTERN, src/src/youtube.rs lines
12-16, and its use in Youtube::insert, lines 61-65)

The regex crate has leftmost-first (Perl-like) match semantics, so the
pattern is embedded as a backtracking matcher specialised to the source's
pattern string, alternative by alternative and in preference order:

  (:?^(:?http?.*?youtu(:?\.be|be.com))(:?/|.*?v=))(?P<id>[A-Za-z0-9_-]{11})

Note the pattern's groups begin with (:? — a group containing an optional
literal colon — not the non-capturing (?:.  The anchor ^ inside the first
group forces every match to start at offset 0 (a leading colon before the
anchor can only match the empty string), so the matcher below starts at the
beginning of the haystack only.  The dot of the lazy gaps .*? does not
match a newline (the regex crate default).  captures(...).name("id") is the
value returned by the matcher, and the trailing characters after the
11-character id group are unconstrained because the pattern ends there. -/

/-- Strip a literal: consumes the given pattern characters from the front
of the input, returning the rest, or none on a mismatch. -/
def lit : List Char → List Char → Option (List Char)
  | [], s => some s
  | _ :: _, [] => none
  | l :: ls, c :: cs => if c = l then lit ls cs else none

/-- First-success choice between two ordered regex alternatives, each
carrying its full continuation (backtracking preference order). -/
def orelse (a b : Option (List Char)) : Option (List Char) :=
  match a with
  | some r => some r
  | none => b

/-- The character class [A-Za-z0-9_-] of the id capture group. -/
def isIdChar (c : Char) : Bool :=
  ('A' ≤ c && c ≤ 'Z') || ('a' ≤ c && c ≤ 'z') || ('0' ≤ c && c ≤ '9') || c == '_' || c == '-'

/-- The capture group (?P<id>[A-Za-z0-9_-]{11}): exactly n id characters
from the front of the input (the rest of the haystack is unconstrained). -/
def takeId : Nat → List Char → Option (List Char)
  | 0, _ => some []
  | _ + 1, [] => none
  | n + 1, c :: s => if isIdChar c then (takeId n s).map (fun r => c :: r) else none

/-- First alternative :?/ of the group (:?/|.*?v=), followed by the id
group: an optional colon (greedy, colon first) then a slash. -/
def g3alt1 (s : List Char) : Option (List Char) :=
  orelse ((lit [':', '/'] s).bind (takeId 11)) ((lit ['/'] s).bind (takeId 11))

/-- Second alternative .*?v= of the group (:?/|.*?v=), followed by the id
group: a lazy non-newline gap, shortest first, then the literal v=. -/
def g3alt2 : List Char → Option (List Char)
  | [] => none
  | c :: s =>
      orelse ((lit ['v', '='] (c :: s)).bind (takeId 11))
        (if c = '\n' then none else g3alt2 s)

/-- The group (:?/|.*?v=) followed by the id group, first alternative
preferred. -/
def g3 (s : List Char) : Option (List Char) :=
  orelse (g3alt1 s) (g3alt2 s)

/-- The group (:?\.be|be.com) followed by the rest of the pattern.  Its
first alternative :?\.be is an optional colon (greedy, colon first) then
the literal .be — the dot is escaped there; its second alternative be.com
carries an unescaped dot, so it is the literal be, then any single
non-newline character, then the literal com. -/
def g4 (s : List Char) : Option (List Char) :=
  orelse ((lit [':', '.', 'b', 'e'] s).bind g3)
    (orelse ((lit ['.', 'b', 'e'] s).bind g3)
      ((lit ['b', 'e'] s).bind (fun s1 =>
        match s1 with
        | [] => none
        | c :: s2 => if c = '\n' then none else (lit ['c', 'o', 'm'] s2).bind g3)))

/-- The lazy gap .*? before the literal youtu in the second group, then the
group (:?\.be|be.com) and the rest: shortest gap first, no newline. -/
def gap1 : List Char → Option (List Char)
  | [] => none
  | c :: s =>
      orelse ((lit ['y', 'o', 'u', 't', 'u'] (c :: s)).bind g4)
        (if c = '\n' then none else gap1 s)

/-- The optional p of http? (greedy, p first) then the gap and the rest. -/
def afterHtt (s : List Char) : Option (List Char) :=
  orelse ((lit ['p'] s).bind gap1) (gap1 s)

/-- Model of PATTERN.captures(url).and_then(name id): the leading :? of the
second group may consume one colon (greedy, colon first) before the literal
htt; the anchor restricts the search to offset 0. -/
def extractId (s : List Char) : Option (List Char) :=
  match s with
  | ':' :: s' =>
      orelse ((lit ['h', 't', 't'] s').bind afterHtt) ((lit ['h', 't', 't'] s).bind afterHtt)
  | _ => (lit ['h', 't', 't'] s).bind afterHtt

/-! ## Data model and ingestion pipeline -/

/-- The persisted record (pub struct Song, src/src/youtube.rs lines 26-33). -/
structure Song where
  id : Int
  vid : String
  timestamp : Int
  duration : Int
  title : String
  deriving DecidableEq, Repr

/-- Modelled from the spec: src/server.rs is not in the sources given; the
spec (sections 3 and 6) says a submitted item's kind is one of Local(path)
and Remote(rawURL), the latter being the server::ItemKind::Youtube(url)
variant matched by Youtube::insert. -/
inductive ItemKind where
  | localFile (path : String)
  | youtube (url : String)
  deriving DecidableEq, Repr

/-- Modelled from the spec: a submitted item (server::Item) carries a kind
and a caller-supplied epoch timestamp ts, matching the fields item.kind and
item.ts used by Youtube::insert. -/
structure Item where
  kind : ItemKind
  ts : Int
  deriving DecidableEq, Repr

/-- The fetched metadata (pub struct YoutubeItem, src/src/youtube.rs lines
113-116). -/
structure YoutubeItem where
  title : String
  duration : Int
  deriving DecidableEq, Repr

/-- An abstract HTTP response for the metadata call: the numeric status
code, the server's reason text, and the response body in already-parsed
form.  The body models the serde shape of YoutubeItem::serialize
(src/src/youtube.rs lines 137-159): none is a body that does not
deserialize as { items: [ { snippet: { title }, contentDetails:
{ duration } } ] }, and some gives the (title, duration) pairs of items. -/
structure HttpResp where
  status : Nat
  reason : String
  body : Option (List (String × String))
  deriving DecidableEq, Repr

/-- Models http_req StatusCode::is_success: a 2xx code. -/
def statusIsSuccess (s : Nat) : Bool :=
  200 ≤ s && s < 300

/-- Model of YoutubeItem::serialize (src/src/youtube.rs lines 137-165) on
the parsed body: a shape mismatch is Error::Serialize; an empty items array
is Error::InvalidYoutubeData; otherwise the title of the first item is
paired with the decoded duration of the first item.  The outer none models
a panic of from_iso8601 on the first item's duration string. -/
def serializeModel : Option (List (String × String)) → Option (Except Error YoutubeItem)
  | none => some (Except.error Error.serialize)
  | some items =>
      match items.head? with
      | none => some (Except.error Error.invalidYoutubeData)
      | some (t, d) =>
          match from_iso8601 d.toList with
          | none => none
          | some n => some (Except.ok ⟨t, n⟩)

/-- Model of YoutubeItem::fetch (src/src/youtube.rs lines 119-135) given
the abstract response of the remote catalog: a non-2xx status is
Error::HttpResponse with the numeric status and the reason text, produced
before the body is ever deserialized; a 2xx response is deserialized by
serializeModel.  (The query building and the GET itself are resolved into
the given HttpResp; a transport failure, Error::HttpClient, would occur
before any HttpResp exists and is outside this function's input.) -/
def fetchModel (resp : HttpResp) : Option (Except Error YoutubeItem) :=
  if statusIsSuccess resp.status then serializeModel resp.body
  else some (Except.error (Error.httpResponse resp.status resp.reason))

/-- Model of Youtube::insert (src/src/youtube.rs lines 55-81) acting on the
youtube log db, returning none for a panic and otherwise the Result paired
with the new log.  A non-youtube kind hits the unreachable! arm (a panic);
a url the pattern does not match is Error::InvalidYoutubeUrl carrying the
original string; a failed fetch propagates its error with no write;
a successful fetch appends exactly one row carrying the caller's
timestamp.  The sql row append (sql/youtube/add_video.sql is not in the
sources given) is modelled from the spec as an append of one record whose
storage-assigned rowId is the next free one. -/
def insertModel (db : List Song) (item : Item) (resp : HttpResp) :
    Option (Except Error Unit × List Song) :=
  match item.kind with
  | ItemKind.localFile _ => none
  | ItemKind.youtube url =>
      match extractId url.toList with
      | none => some (Except.error (Error.invalidYoutubeUrl url), db)
      | some vid =>
          match fetchModel resp with
          | none => none
          | some (Except.error e) => some (Except.error e, db)
          | some (Except.ok info) =>
              some (Except.ok (),
                db ++ [⟨(db.length : Int), vid.asString, item.ts, info.duration, info.title⟩])

/-! ## Storage queries

Modelled from the spec: the query texts sql/youtube/get_current.sql and
sql/youtube/get_previous.sql are not in the sources given.  The spec
(section 4.4) says current() returns the record with the maximum timestamp
in the kind's log and previous() the record with the second-largest
timestamp, each failing with NotFoundError (rusqlite QueryReturnedNoRows
wrapped in Error::Sql, modelled as Error.sqlNoRows) when no such record
exists. -/

/-- The record of maximal timestamp among r and rs (first such record on a
tie, which the spec leaves unspecified). -/
def maxByTs (r : Song) (rs : List Song) : Song :=
  rs.foldl (fun best x => if best.timestamp < x.timestamp then x else best) r

/-- Modelled from the spec: Youtube::current (src/src/youtube.rs lines
83-91) runs get_current.sql, which returns the record with the maximum
timestamp, or QueryReturnedNoRows on an empty log. -/
def currentModel (db : List Song) : Except Error Song :=
  match db with
  | [] => Except.error Error.sqlNoRows
  | r :: rs => Except.ok (maxByTs r rs)

/-- Remove the first record carrying the given timestamp. -/
def removeOneByTs (ts : Int) : List Song → List Song
  | [] => []
  | r :: rs => if r.timestamp = ts then rs else r :: removeOneByTs ts rs

/-- Modelled from the spec: Youtube::previous (src/src/youtube.rs lines
93-101) runs get_previous.sql, which returns the record with the
second-largest timestamp — the maximum after one record of maximal
timestamp is set aside — or QueryReturnedNoRows when fewer than two
records exist. -/
def previousModel (db : List Song) : Except Error Song :=
  match currentModel db with
  | Except.error e => Except.error e
  | Except.ok c => currentModel (removeOneByTs c.timestamp db)

/-! ## Percent encoder (fn encode, src/src/youtube.rs lines 186-195) -/

/-- The pass-through class of the encoder's match: the Rust arm
'A'..='Z' | 'a'..='z' | '0'..='9' | '-' | '_' | '.' | '~'. -/
def isSafeChar (c : Char) : Bool :=
  ('A' ≤ c && c ≤ 'Z') || ('a' ≤ c && c ≤ 'z') || ('0' ≤ c && c ≤ '9') ||
    c == '-' || c == '_' || c == '.' || c == '~'

/-- One uppercase hexadecimal digit. -/
def hexDigitChar (n : Nat) : Char :=
  if n < 10 then Char.ofNat (48 + n) else Char.ofNat (55 + n)

/-- The uppercase hexadecimal digits of n, most significant first, at least
one digit when the fuel covers the digit count.  The fuel only bounds the
recursion depth: hexDigits supplies n + 1, which always exceeds the number
of base-16 digits of n, so the fuel never runs out. -/
def hexDigitsAux : Nat → Nat → List Char
  | 0, _ => []
  | fuel + 1, n =>
      if n < 16 then [hexDigitChar n]
      else hexDigitsAux fuel (n / 16) ++ [hexDigitChar (n % 16)]

/-- The uppercase hexadecimal digits of n, most significant first, at least
one digit. -/
def hexDigits (n : Nat) : List Char :=
  hexDigitsAux (n + 1) n

/-- Models the Rust format string %{:02X} applied after the percent sign:
uppercase hexadecimal, zero-padded on the left to at least two digits
(values of 0x100 and above render with more than two digits). -/
def fmt02X (n : Nat) : List Char :=
  if (hexDigits n).length < 2 then '0' :: hexDigits n else hexDigits n

/-- Model of fn encode (src/src/youtube.rs lines 186-195): a fold over the
characters (not the bytes) of the input; a safe character is pushed
unchanged, and any other character ch is rendered as the percent sign
followed by fmt02X of ch as u32, the Unicode scalar value. -/
def encode (data : List Char) : List Char :=
  data.foldl
    (fun a ch => if isSafeChar ch then a ++ [ch] else a ++ '%' :: fmt02X ch.toNat) []

/-- The per-character rendering: the body of the amended claim, one safe
character passing through unchanged, every other character rendered as the
percent sign followed by the zero-padded uppercase hex of its scalar
value. -/
def encodeCharSpec (c : Char) : List Char :=
  if isSafeChar c then [c] else '%' :: fmt02X c.toNat

/-- An uppercase hexadecimal digit: 0-9 or A-F. -/
def isUpperHexDigit (c : Char) : Bool :=
  c.isDigit || ('A' ≤ c && c ≤ 'F')

/-! ## Credential resolution (static API_KEY, src/src/youtube.rs lines
18-24) and process lifecycle -/

/-- The process state relevant to the lazily initialized API_KEY static:
the memoized cell of the Lazy, and whether std::process::exit(1) has been
reached. -/
structure Proc where
  keyCell : Option String
  halted : Bool
  deriving DecidableEq, Repr

/-- The state at process entry: the Lazy cell is uninitialized. -/
def initProc : Proc :=
  ⟨none, false⟩

/-- Model of dereferencing API_KEY (src/src/youtube.rs lines 18-24), with
env the value of the SHAKEN_YOUTUBE_API_KEY environment variable: a
memoized value is returned as is; otherwise the variable is read, its value
memoized, and its absence reaches std::process::exit(1) — the halted
state. -/
def forceApiKey (env : Option String) (st : Proc) : Option String × Proc :=
  match st.keyCell with
  | some v => (some v, st)
  | none =>
      match env with
      | some v => (some v, ⟨some v, st.halted⟩)
      | none => (none, ⟨none, true⟩)

/-- Modelled from the spec: fn main (src/src/main.rs) creates directories,
reads the config file, opens the database and binds the HTTP server, and
the route wiring of src/server.rs (not in the sources given) is, per the
spec's sections 1 and 2, plain dispatch with no logic of its own; no part
of startup dereferences youtube::API_KEY, so startup leaves the Lazy cell
untouched. -/
def startup (st : Proc) : Proc :=
  st

/-- A current() query served against the youtube log: reads never touch the
credential. -/
def serveCurrentReq (db : List Song) (st : Proc) : Except Error Song × Proc :=
  (currentModel db, st)


/-! ## Theorems: the duration decoder (claims C2, C3, C4) -/

/-- A parse of an all-digit run is a nonnegative in-range i64 value: the
digits branch returns the digit value when it fits and 0 otherwise. -/
theorem parseI64orZero_digits (r : List Char) (h : r.all Char.isDigit = true) :
    0 ≤ parseI64orZero r ∧ parseI64orZero r ≤ 2 ^ 63 - 1 := by
  cases r with
  | nil => exact ⟨le_refl 0, by decide⟩
  | cons c rest =>
    rw [List.all_cons, Bool.and_eq_true] at h
    have hplus : ¬ c = '+' := fun e => absurd h.1 (by rw [e]; decide)
    have hminus : ¬ c = '-' := fun e => absurd h.1 (by rw [e]; decide)
    have heq : parseI64orZero (c :: rest) =
        (if c = '+' then
          if rest ≠ [] ∧ rest.all Char.isDigit ∧ digitsVal rest ≤ 2 ^ 63 - 1 then
            (digitsVal rest : Int)
          else 0
        else if c = '-' then
          if rest ≠ [] ∧ rest.all Char.isDigit ∧ digitsVal rest ≤ 2 ^ 63 then
            -(digitsVal rest : Int)
          else 0
        else
          if (c :: rest).all Char.isDigit ∧ digitsVal (c :: rest) ≤ 2 ^ 63 - 1 then
            (digitsVal (c :: rest) : Int)
          else 0) := rfl
    rw [heq, if_neg hplus, if_neg hminus]
    by_cases hrng : (c :: rest).all Char.isDigit ∧ digitsVal (c :: rest) ≤ 2 ^ 63 - 1
    · rw [if_pos hrng]
      have := hrng.2
      constructor <;> omega
    · rw [if_neg hrng]
      exact ⟨le_refl 0, by norm_num⟩

/-- Wrapping is the identity on values already inside the i64 range. -/
theorem wrap64_id (x : Int) (h1 : -(2 ^ 63) ≤ x) (h2 : x ≤ 2 ^ 63 - 1) :
    wrap64 x = x := by
  unfold wrap64
  rw [Int.emod_eq_of_lt (by omega) (by omega)]
  omega

/-- The wrapped S-arm expression a + parse equals the abstract sum when the
sum stays in range. -/
theorem wrap_chain_S (a v : Int) (hb1 : 0 ≤ a + v) (hb2 : a + v ≤ 2 ^ 63 - 1) :
    wrap64 (a + v) = a + v :=
  wrap64_id _ (by omega) hb2

/-- The wrapped M-arm expression a + parse * 60 equals the abstract sum
when the accumulator and parse are nonnegative and the sum stays in range:
the intermediate product is then also in range. -/
theorem wrap_chain_M (a v : Int) (ha0 : 0 ≤ a) (hv0 : 0 ≤ v)
    (hb : a + v * 60 ≤ 2 ^ 63 - 1) :
    wrap64 (a + wrap64 (v * 60)) = a + v * 60 := by
  have h1 : wrap64 (v * 60) = v * 60 := wrap64_id _ (by omega) (by omega)
  rw [h1]
  exact wrap64_id _ (by omega) (by omega)

/-- The wrapped H-arm expression a + parse * 60 * 60 equals the abstract
sum when the accumulator and parse are nonnegative and the sum stays in
range: both intermediate products are then also in range. -/
theorem wrap_chain_H (a v : Int) (ha0 : 0 ≤ a) (hv0 : 0 ≤ v)
    (hb : a + v * 3600 ≤ 2 ^ 63 - 1) :
    wrap64 (a + wrap64 (wrap64 (v * 60) * 60)) = a + v * 3600 := by
  have h1 : wrap64 (v * 60) = v * 60 := wrap64_id _ (by omega) (by omega)
  rw [h1]
  have h2 : wrap64 (v * 60 * 60) = v * 60 * 60 := by
    have he : v * 60 * 60 = v * 3600 := by ring
    rw [he]
    exact wrap64_id _ (by omega) (by omega)
  rw [h2]
  have he : v * 60 * 60 = v * 3600 := by ring
  rw [he]
  exact wrap64_id _ (by omega) (by omega)

/-- The reference fold's running total never decreases (unit contributions
of all-digit runs are nonnegative), so the final total bounds every
intermediate total. -/
theorem referenceFold_mono : ∀ (rest : List Char) (a : Int) (r : List Char),
    r.all Char.isDigit = true →
    a ≤ (List.foldl referenceStep (a, r) rest).1 := by
  intro rest
  induction rest with
  | nil => intro a r _; exact le_refl a
  | cons c rest ih =>
    intro a r hdig
    rw [List.foldl_cons]
    have hv := parseI64orZero_digits r hdig
    by_cases hd : c.isDigit
    · have hstep : referenceStep (a, r) c = (a, r ++ [c]) := by
        simp [referenceStep, hd]
      rw [hstep]
      exact ih a (r ++ [c]) (by simp [List.all_append, hdig, hd])
    · by_cases hH : c = 'H'
      · have hstep : referenceStep (a, r) c = (a + parseI64orZero r * 3600, []) := by
          simp [referenceStep, hd, hH]
        rw [hstep]
        exact le_trans (by have := hv.1; omega) (ih _ [] rfl)
      · by_cases hM : c = 'M'
        · have hstep : referenceStep (a, r) c = (a + parseI64orZero r * 60, []) := by
            simp [referenceStep, hd, hH, hM]
          rw [hstep]
          exact le_trans (by have := hv.1; omega) (ih _ [] rfl)
        · by_cases hS : c = 'S'
          · have hstep : referenceStep (a, r) c = (a + parseI64orZero r, []) := by
              simp [referenceStep, hd, hH, hM, hS]
            rw [hstep]
            exact le_trans (by have := hv.1; omega) (ih _ [] rfl)
          · have hstep : referenceStep (a, r) c = (a, []) := by
              simp [referenceStep, hd, hH, hM, hS]
            rw [hstep]
            exact ih a [] rfl

/-- The enumerate-fold of the source agrees with the run-carrying reference
fold, as long as the boundary index p and position i describe a valid slice
holding exactly the reference's current all-digit run r, the accumulator is
nonnegative, and the reference's final total — which bounds every
intermediate value — fits in i64, so that no wrap64 fires. -/
theorem iso8601_fold_agree (period : List Char) :
    ∀ (rest : List Char) (i p : Nat) (a : Int) (r : List Char),
      period.drop i = rest →
      iso8601Slice period p i = some r →
      r.all Char.isDigit = true →
      0 ≤ a →
      (List.foldl referenceStep (a, r) rest).1 ≤ 2 ^ 63 - 1 →
      ∃ q, List.foldl (iso8601Step period) (some (a, p)) (List.enumFrom i rest) =
        some ((List.foldl referenceStep (a, r) rest).1, q) := by
  intro rest
  induction rest with
  | nil => intro i p a r hdrop hslice hdig ha0 hbound; exact ⟨p, rfl⟩
  | cons c rest ih =>
    intro i p a r hdrop hslice hdig ha0 hbound
    have hi_lt : i < period.length := by
      by_contra h
      have hnil : period.drop i = [] := List.drop_eq_nil_of_le (Nat.le_of_not_lt h)
      rw [hdrop] at hnil
      exact List.noConfusion hnil
    have hget : period[i]? = some c := by
      have h0 := List.getElem?_drop period i 0
      rw [Nat.add_zero, hdrop] at h0
      simpa using h0.symm
    have hdrop' : period.drop (i + 1) = rest := by
      have h1 : period.drop (i + 1) = (period.drop i).drop 1 := by
        rw [List.drop_drop]
      rw [h1, hdrop]
      rfl
    have hcond : p + 1 ≤ i ∧ i ≤ period.length := by
      by_contra h
      unfold iso8601Slice at hslice
      rw [if_neg h] at hslice
      exact Option.noConfusion hslice
    have hr : (period.drop (p + 1)).take (i - (p + 1)) = r := by
      unfold iso8601Slice at hslice
      rw [if_pos hcond] at hslice
      exact Option.some.inj hslice
    have henum : List.enumFrom i (c :: rest) = (i, c) :: List.enumFrom (i + 1) rest := rfl
    rw [henum, List.foldl_cons, List.foldl_cons]
    rw [List.foldl_cons] at hbound
    have hslice_digit : iso8601Slice period p (i + 1) = some (r ++ [c]) := by
      unfold iso8601Slice
      rw [if_pos ⟨Nat.le_succ_of_le hcond.1, hi_lt⟩]
      congr 1
      have h2 : i + 1 - (p + 1) = (i - (p + 1)) + 1 := by omega
      rw [h2, List.take_succ, List.getElem?_drop, hr]
      have h3 : p + 1 + (i - (p + 1)) = i := by omega
      rw [h3, hget]
      rfl
    have hslice_reset : iso8601Slice period i (i + 1) = some [] := by
      unfold iso8601Slice
      rw [if_pos ⟨Nat.le_refl _, hi_lt⟩]
      simp
    have hv := parseI64orZero_digits r hdig
    by_cases hd : c.isDigit
    · have hstep : iso8601Step period (some (a, p)) (i, c) = some (a, p) := by
        simp [iso8601Step, hd]
      have hrstep : referenceStep (a, r) c = (a, r ++ [c]) := by
        simp [referenceStep, hd]
      rw [hstep, hrstep]
      rw [hrstep] at hbound
      exact ih (i + 1) p a (r ++ [c]) hdrop' hslice_digit
        (by simp [List.all_append, hdig, hd]) ha0 hbound
    · by_cases hH : c = 'H'
      · have hrstep : referenceStep (a, r) c = (a + parseI64orZero r * 3600, []) := by
          simp [referenceStep, hd, hH]
        rw [hrstep] at hbound
        have hb' : a + parseI64orZero r * 3600 ≤ 2 ^ 63 - 1 :=
          le_trans (referenceFold_mono rest _ [] rfl) hbound
        have ha0' : 0 ≤ a + parseI64orZero r * 3600 := by
          have := hv.1
          omega
        have hwrap := wrap_chain_H a (parseI64orZero r) ha0 hv.1 hb'
        have hstep : iso8601Step period (some (a, p)) (i, c) =
            some (a + parseI64orZero r * 3600, i) := by
          simp [iso8601Step, hd, hH, iso8601Slice, if_pos hcond, hr, hwrap]
        rw [hstep, hrstep]
        exact ih (i + 1) i _ [] hdrop' hslice_reset rfl ha0' hbound
      · by_cases hM : c = 'M'
        · have hrstep : referenceStep (a, r) c = (a + parseI64orZero r * 60, []) := by
            simp [referenceStep, hd, hH, hM]
          rw [hrstep] at hbound
          have hb' : a + parseI64orZero r * 60 ≤ 2 ^ 63 - 1 :=
            le_trans (referenceFold_mono rest _ [] rfl) hbound
          have ha0' : 0 ≤ a + parseI64orZero r * 60 := by
            have := hv.1
            omega
          have hwrap := wrap_chain_M a (parseI64orZero r) ha0 hv.1 hb'
          have hstep : iso8601Step period (some (a, p)) (i, c) =
              some (a + parseI64orZero r * 60, i) := by
            simp [iso8601Step, hd, hH, hM, iso8601Slice, if_pos hcond, hr, hwrap]
          rw [hstep, hrstep]
          exact ih (i + 1) i _ [] hdrop' hslice_reset rfl ha0' hbound
        · by_cases hS : c = 'S'
          · have hrstep : referenceStep (a, r) c = (a + parseI64orZero r, []) := by
              simp [referenceStep, hd, hH, hM, hS]
            rw [hrstep] at hbound
            have hb' : a + parseI64orZero r ≤ 2 ^ 63 - 1 :=
              le_trans (referenceFold_mono rest _ [] rfl) hbound
            have ha0' : 0 ≤ a + parseI64orZero r := by
              have := hv.1
              omega
            have hwrap := wrap_chain_S a (parseI64orZero r) ha0' hb'
            have hstep : iso8601Step period (some (a, p)) (i, c) =
                some (a + parseI64orZero r, i) := by
              simp [iso8601Step, hd, hH, hM, hS, iso8601Slice, if_pos hcond, hr, hwrap]
            rw [hstep, hrstep]
            exact ih (i + 1) i _ [] hdrop' hslice_reset rfl ha0' hbound
          · have hstep : iso8601Step period (some (a, p)) (i, c) = some (a, i) := by
              simp [iso8601Step, hd, hH, hM, hS]
            have hrstep : referenceStep (a, r) c = (a, []) := by
              simp [referenceStep, hd, hH, hM, hS]
            rw [hstep, hrstep]
            rw [hrstep] at hbound
            exact ih (i + 1) i a [] hdrop' hslice_reset rfl ha0 hbound

/-- C2: the duration decoder satisfies the spec's example equations:
decode of PT1H2M3S is 3723, of PT5M is 300, of PT45S is 45, of P0D is 0, of
the empty string is 0, and of garbage is 0 (and none of these panics). -/
theorem duration_decoder_examples :
    from_iso8601 "PT1H2M3S".toList = some 3723 ∧
    from_iso8601 "PT5M".toList = some 300 ∧
    from_iso8601 "PT45S".toList = some 45 ∧
    from_iso8601 "P0D".toList = some 0 ∧
    from_iso8601 "".toList = some 0 ∧
    from_iso8601 "garbage".toList = some 0 := by
  decide

/-- C3: against the claim that the decoder is a total function that never
fails or panics on any input, the source panics on the one-character input
H: the very first fold step evaluates the Rust slice period[1..0], whose
start exceeds its end, so the process panics.  The model therefore returns
none (its panic value) rather than any degraded total. -/
theorem from_iso8601_panics_on_H : from_iso8601 "H".toList = none := by decide

/-- C4 counterexample: on the input 45S, whose first digit run starts at
offset 0, the source decodes 5 — the initial boundary offset 0 makes the
slice period[1..2] skip the character at index 0, dropping the digit 4 —
while the spec's reference algorithm yields 45, so the decoder does not
equal the reference on all inputs. -/
theorem from_iso8601_offset0_counterexample :
    from_iso8601 "45S".toList = some 5 ∧
    referenceDecode "45S".toList = 45 ∧
    from_iso8601 "45S".toList ≠ some (referenceDecode "45S".toList) := by
  decide

/-- C4 (amended): for every ASCII input whose first character (if any) is
neither a digit nor one of the unit letters H, M, S, and whose reference
total fits in i64 (the running total only grows, so the final total bounds
every intermediate value and no i64 operation overflows), the decoder
neither panics nor wraps nor diverges from the spec's reference algorithm:
it returns exactly the reference result.  (A leading digit run loses its
first character to the initial boundary offset, a leading unit letter
panics, and an out-of-range total wraps in i64 — restrictions forced by
the counterexample above, the C3 failing input, and the i64 accumulation;
every real duration string starts with the marker P and totals far below
2^63 seconds, so it satisfies all three.) -/
theorem from_iso8601_matches_reference (l : List Char)
    (hascii : ∀ c ∈ l, c.toNat < 128)
    (hhead : ∀ c ∈ l.take 1, c.isDigit = false ∧ c ≠ 'H' ∧ c ≠ 'M' ∧ c ≠ 'S')
    (hbound : referenceDecode l ≤ 2 ^ 63 - 1) :
    from_iso8601 l = some (referenceDecode l) := by
  cases l with
  | nil => rfl
  | cons c rest =>
    obtain ⟨hd, hH, hM, hS⟩ := hhead c (by simp)
    have hrstep : referenceStep (0, []) c = (0, []) := by
      simp [referenceStep, hd, hH, hM, hS]
    have hb : (List.foldl referenceStep (0, []) rest).1 ≤ 2 ^ 63 - 1 := by
      unfold referenceDecode at hbound
      rw [List.foldl_cons, hrstep] at hbound
      exact hbound
    unfold from_iso8601 referenceDecode
    have h1 : List.enum (c :: rest) = (0, c) :: List.enumFrom 1 rest := rfl
    rw [h1, List.foldl_cons, List.foldl_cons]
    have hstep : iso8601Step (c :: rest) (some (0, 0)) (0, c) = some (0, 0) := by
      simp [iso8601Step, hd, hH, hM, hS]
    rw [hstep, hrstep]
    have hslice : iso8601Slice (c :: rest) 0 1 = some [] := by
      unfold iso8601Slice
      rw [if_pos ⟨Nat.le_refl _, by simp⟩]
      simp
    obtain ⟨q, hq⟩ :=
      iso8601_fold_agree (c :: rest) rest 1 0 0 [] rfl hslice rfl (le_refl 0) hb
    rw [hq]
    rfl

/-- Witness for the amended C4 theorem at the concrete input PT45S. -/
theorem from_iso8601_matches_reference_witness :
    from_iso8601 "PT45S".toList = some (referenceDecode "PT45S".toList) :=
  from_iso8601_matches_reference "PT45S".toList (by decide) (by decide) (by decide)

/-! ## Theorems: the URL identifier extractor (claim C5) -/

/-- Soundness of the id capture group: a captured id has exactly the
requested length and stays in the character class. -/
theorem takeId_sound : ∀ (n : Nat) (s r : List Char),
    takeId n s = some r → r.length = n ∧ r.all isIdChar := by
  intro n
  induction n with
  | zero =>
    intro s r h
    rw [takeId] at h
    cases h
    exact ⟨rfl, rfl⟩
  | succ n ih =>
    intro s r h
    cases s with
    | nil => exact Option.noConfusion h
    | cons c s =>
      rw [takeId] at h
      by_cases hc : isIdChar c
      · rw [if_pos hc] at h
        obtain ⟨r', hr', hmap⟩ := Option.map_eq_some'.mp h
        obtain ⟨hl, ha⟩ := ih s r' hr'
        subst hmap
        refine ⟨by simp [hl], ?_⟩
        simp [List.all_cons, hc, ha]
      · rw [if_neg hc] at h
        exact Option.noConfusion h

/-- Completeness of the id capture group on an exact-length well-formed
id. -/
theorem takeId_full : ∀ (id : List Char), id.all isIdChar = true →
    takeId id.length id = some id := by
  intro id
  induction id with
  | nil => intro _; rfl
  | cons c s ih =>
    intro h
    rw [List.all_cons, Bool.and_eq_true] at h
    show takeId (s.length + 1) (c :: s) = some (c :: s)
    rw [takeId, if_pos h.1, ih h.2]
    rfl

/-- A first-success choice that succeeded did so through one of its two
alternatives. -/
theorem orelse_sound (a b : Option (List Char)) (r : List Char)
    (h : orelse a b = some r) : a = some r ∨ b = some r := by
  cases a with
  | none => right; exact h
  | some x => left; exact h

theorem bind_takeId_sound (o : Option (List Char)) (r : List Char)
    (h : o.bind (takeId 11) = some r) : r.length = 11 ∧ r.all isIdChar := by
  cases o with
  | none => exact Option.noConfusion h
  | some t => exact takeId_sound 11 t r h

theorem g3alt1_sound (s r : List Char) (h : g3alt1 s = some r) :
    r.length = 11 ∧ r.all isIdChar := by
  rcases orelse_sound _ _ _ h with h' | h' <;> exact bind_takeId_sound _ _ h'

theorem g3alt2_sound : ∀ (s r : List Char), g3alt2 s = some r →
    r.length = 11 ∧ r.all isIdChar := by
  intro s
  induction s with
  | nil => intro r h; exact Option.noConfusion h
  | cons c s ih =>
    intro r h
    rw [g3alt2] at h
    rcases orelse_sound _ _ _ h with h' | h'
    · exact bind_takeId_sound _ _ h'
    · by_cases hc : c = '\n'
      · rw [if_pos hc] at h'; exact Option.noConfusion h'
      · rw [if_neg hc] at h'; exact ih r h'

theorem g3_sound (s r : List Char) (h : g3 s = some r) :
    r.length = 11 ∧ r.all isIdChar := by
  rcases orelse_sound _ _ _ h with h' | h'
  · exact g3alt1_sound s r h'
  · exact g3alt2_sound s r h'

theorem bind_g3_sound (o : Option (List Char)) (r : List Char)
    (h : o.bind g3 = some r) : r.length = 11 ∧ r.all isIdChar := by
  cases o with
  | none => exact Option.noConfusion h
  | some t => exact g3_sound t r h

theorem g4_sound (s r : List Char) (h : g4 s = some r) :
    r.length = 11 ∧ r.all isIdChar := by
  rcases orelse_sound _ _ _ h with h' | h'
  · exact bind_g3_sound _ _ h'
  · rcases orelse_sound _ _ _ h' with h'' | h''
    · exact bind_g3_sound _ _ h''
    · cases hbe : lit ['b', 'e'] s with
      | none => rw [hbe] at h''; exact Option.noConfusion h''
      | some s1 =>
        rw [hbe] at h''
        cases s1 with
        | nil => exact Option.noConfusion h''
        | cons c s2 =>
          have h3 : (if c = '\n' then none else (lit ['c', 'o', 'm'] s2).bind g3) = some r := h''
          by_cases hc : c = '\n'
          · rw [if_pos hc] at h3
            exact Option.noConfusion h3
          · rw [if_neg hc] at h3
            exact bind_g3_sound _ _ h3

theorem bind_g4_sound (o : Option (List Char)) (r : List Char)
    (h : o.bind g4 = some r) : r.length = 11 ∧ r.all isIdChar := by
  cases o with
  | none => exact Option.noConfusion h
  | some t => exact g4_sound t r h

theorem gap1_sound : ∀ (s r : List Char), gap1 s = some r →
    r.length = 11 ∧ r.all isIdChar := by
  intro s
  induction s with
  | nil => intro r h; exact Option.noConfusion h
  | cons c s ih =>
    intro r h
    rw [gap1] at h
    rcases orelse_sound _ _ _ h with h' | h'
    · exact bind_g4_sound _ _ h'
    · by_cases hc : c = '\n'
      · rw [if_pos hc] at h'; exact Option.noConfusion h'
      · rw [if_neg hc] at h'; exact ih r h'

theorem bind_gap1_sound (o : Option (List Char)) (r : List Char)
    (h : o.bind gap1 = some r) : r.length = 11 ∧ r.all isIdChar := by
  cases o with
  | none => exact Option.noConfusion h
  | some t => exact gap1_sound t r h

theorem afterHtt_sound (s r : List Char) (h : afterHtt s = some r) :
    r.length = 11 ∧ r.all isIdChar := by
  rcases orelse_sound _ _ _ h with h' | h'
  · exact bind_gap1_sound _ _ h'
  · exact gap1_sound s r h'

theorem bind_afterHtt_sound (o : Option (List Char)) (r : List Char)
    (h : o.bind afterHtt = some r) : r.length = 11 ∧ r.all isIdChar := by
  cases o with
  | none => exact Option.noConfusion h
  | some t => exact afterHtt_sound t r h

theorem extractId_sound (s r : List Char) (h : extractId s = some r) :
    r.length = 11 ∧ r.all isIdChar := by
  unfold extractId at h
  split at h
  · rcases orelse_sound _ _ _ h with h' | h' <;> exact bind_afterHtt_sound _ _ h'
  · exact bind_afterHtt_sound _ _ h

/-- The shortened-domain shape: a well-formed 11-character id embedded
after the youtu.be slash form is extracted exactly. -/
theorem shape_youtu_be (id : List Char) (h : takeId 11 id = some id) :
    extractId ("https://youtu.be/".toList ++ id) = some id := by
  simp [extractId, afterHtt, gap1, g4, g3, g3alt1, g3alt2, lit, orelse, h]

/-- The full-domain query-parameter shape: a well-formed 11-character id
embedded after watch?v= is extracted exactly. -/
theorem shape_watch (id : List Char) (h : takeId 11 id = some id) :
    extractId ("https://www.youtube.com/watch?v=".toList ++ id) = some id := by
  simp [extractId, afterHtt, gap1, g4, g3, g3alt1, g3alt2, lit, orelse, takeId, isIdChar, h]

/-- The full-domain path-embedded shape: a well-formed 11-character id
embedded after the youtube.com slash form is extracted exactly. -/
theorem shape_path (id : List Char) (h : takeId 11 id = some id) :
    extractId ("http://youtube.com/".toList ++ id) = some id := by
  simp [extractId, afterHtt, gap1, g4, g3, g3alt1, g3alt2, lit, orelse, h]

/-- C5: for each accepted link shape carrying an embedded 11-character id
drawn from [A-Za-z0-9_-], extraction returns exactly that id; every id
extraction ever returned has exactly 11 characters of that class (never a
wrong length or character set); and for a url the pattern does not match,
insert fails with Error::InvalidYoutubeUrl carrying the original string and
writes nothing. -/
theorem extract_id_spec :
    (∀ id : List Char, id.length = 11 → id.all isIdChar = true →
      extractId ("https://youtu.be/".toList ++ id) = some id ∧
      extractId ("https://www.youtube.com/watch?v=".toList ++ id) = some id ∧
      extractId ("http://youtube.com/".toList ++ id) = some id) ∧
    (∀ s r : List Char, extractId s = some r → r.length = 11 ∧ r.all isIdChar = true) ∧
    (∀ (db : List Song) (item : Item) (resp : HttpResp) (url : String),
      item.kind = ItemKind.youtube url → extractId url.toList = none →
      insertModel db item resp = some (Except.error (Error.invalidYoutubeUrl url), db)) := by
  refine ⟨?_, extractId_sound, ?_⟩
  · intro id hlen hcls
    have h : takeId 11 id = some id := hlen ▸ takeId_full id hcls
    exact ⟨shape_youtu_be id h, shape_watch id h, shape_path id h⟩
  · intro db item resp url hk hx
    simp only [insertModel, hk, hx]

/-- Witness for the C5 theorem: the canonical id dQw4w9WgXcQ in the
shortened-domain shape, and a url the pattern rejects. -/
theorem extract_id_spec_witness :
    extractId ("https://youtu.be/".toList ++ "dQw4w9WgXcQ".toList) =
      some "dQw4w9WgXcQ".toList ∧
    ("dQw4w9WgXcQ".toList.length = 11 ∧ "dQw4w9WgXcQ".toList.all isIdChar = true) ∧
    insertModel [] ⟨ItemKind.youtube "nope", 1⟩ ⟨200, "OK", none⟩ =
      some (Except.error (Error.invalidYoutubeUrl "nope"), []) :=
  ⟨(extract_id_spec.1 "dQw4w9WgXcQ".toList (by decide) (by decide)).1,
   extract_id_spec.2.1 ("https://youtu.be/".toList ++ "dQw4w9WgXcQ".toList)
     "dQw4w9WgXcQ".toList
     ((extract_id_spec.1 "dQw4w9WgXcQ".toList (by decide) (by decide)).1),
   extract_id_spec.2.2 [] ⟨ItemKind.youtube "nope", 1⟩ ⟨200, "OK", none⟩ "nope"
     rfl (by decide)⟩


/-! ## Theorems: storage queries (claim C1) -/

/-- Under strictly increasing timestamps, the maximal-timestamp record of a
log is its last record. -/
theorem maxByTs_chain : ∀ (rs : List Song) (r : Song),
    List.Chain' (fun a b : Song => a.timestamp < b.timestamp) (r :: rs) →
    maxByTs r rs = (r :: rs).getLast (List.cons_ne_nil r rs) := by
  intro rs
  induction rs with
  | nil => intro r _; rfl
  | cons x rs ih =>
    intro r hch
    rw [List.chain'_cons] at hch
    have h1 : maxByTs r (x :: rs) = maxByTs x rs := by
      unfold maxByTs
      rw [List.foldl_cons, if_pos hch.1]
    rw [h1, ih x hch.2, List.getLast_cons (List.cons_ne_nil x rs)]

/-- Under strictly increasing timestamps, every record strictly precedes
the last record of the remaining log. -/
theorem chain_lt_getLast : ∀ (l : List Song) (r : Song) (h : l ≠ []),
    List.Chain' (fun a b : Song => a.timestamp < b.timestamp) (r :: l) →
    r.timestamp < (l.getLast h).timestamp := by
  intro l
  induction l with
  | nil => intro r h; exact absurd rfl h
  | cons x rs ih =>
    intro r _ hch
    rw [List.chain'_cons] at hch
    cases rs with
    | nil => exact hch.1
    | cons y rs' =>
      rw [List.getLast_cons (List.cons_ne_nil y rs')]
      exact lt_trans hch.1 (ih x (List.cons_ne_nil y rs') hch.2)

/-- Under strictly increasing timestamps, removing the one record carrying
the maximal timestamp removes exactly the last record. -/
theorem removeOne_chain : ∀ (db : List Song) (hne : db ≠ []),
    List.Chain' (fun a b : Song => a.timestamp < b.timestamp) db →
    removeOneByTs ((db.getLast hne).timestamp) db = db.dropLast := by
  intro db
  induction db with
  | nil => intro hne; exact absurd rfl hne
  | cons r l ih =>
    intro _ hch
    cases l with
    | nil =>
      show removeOneByTs r.timestamp [r] = []
      rw [removeOneByTs, if_pos rfl]
    | cons x rs =>
      have hlast : (r :: x :: rs).getLast (List.cons_ne_nil r (x :: rs)) =
          (x :: rs).getLast (List.cons_ne_nil x rs) :=
        List.getLast_cons (List.cons_ne_nil x rs)
      have hne' : r.timestamp ≠ ((x :: rs).getLast (List.cons_ne_nil x rs)).timestamp :=
        ne_of_lt (chain_lt_getLast (x :: rs) r (List.cons_ne_nil x rs) hch)
      rw [hlast, removeOneByTs, if_neg hne']
      rw [ih (List.cons_ne_nil x rs) (List.chain'_cons.mp hch).2]
      rfl

/-- Under strictly increasing timestamps, current() returns the last
record. -/
theorem currentModel_chain : ∀ (l : List Song) (hne : l ≠ []),
    List.Chain' (fun a b : Song => a.timestamp < b.timestamp) l →
    currentModel l = Except.ok (l.getLast hne) := by
  intro l hne hch
  cases l with
  | nil => exact absurd rfl hne
  | cons a rs =>
    show Except.ok (maxByTs a rs) = _
    rw [maxByTs_chain rs a hch]

/-- C1: for a log of records inserted with strictly increasing timestamps,
current() returns the record with the maximum timestamp (the last one
inserted) and previous() the record with the second-largest timestamp (the
one inserted before it); on a one-record log previous() fails with the
NotFoundError (QueryReturnedNoRows wrapped in Error::Sql), and on an empty
log both current() and previous() fail with it. -/
theorem storage_current_previous_spec (db : List Song)
    (hinc : List.Chain' (fun a b : Song => a.timestamp < b.timestamp) db) :
    (db = [] → currentModel db = Except.error Error.sqlNoRows ∧
      previousModel db = Except.error Error.sqlNoRows) ∧
    (∀ r, db.getLast? = some r → currentModel db = Except.ok r) ∧
    (db.length = 1 → previousModel db = Except.error Error.sqlNoRows) ∧
    (∀ r, db.dropLast.getLast? = some r → previousModel db = Except.ok r) := by
  have hcur : ∀ hne : db ≠ [], currentModel db = Except.ok (db.getLast hne) :=
    fun hne => currentModel_chain db hne hinc
  refine ⟨?_, ?_, ?_, ?_⟩
  · intro h; subst h; exact ⟨rfl, rfl⟩
  · intro r hr
    have hne : db ≠ [] := by
      intro h; subst h; exact Option.noConfusion hr
    rw [hcur hne]
    rw [List.getLast?_eq_getLast db hne] at hr
    exact congrArg Except.ok (Option.some.inj hr)
  · intro hlen
    cases db with
    | nil => simp at hlen
    | cons a rs =>
      cases rs with
      | nil =>
        show previousModel [a] = Except.error Error.sqlNoRows
        unfold previousModel
        show currentModel (removeOneByTs (maxByTs a []).timestamp [a]) = _
        rw [show maxByTs a [] = a from rfl]
        rw [removeOneByTs, if_pos rfl]
        rfl
      | cons b rs' => simp at hlen
  · intro r hr
    have hne2 : db.dropLast ≠ [] := by
      intro h; rw [h] at hr; exact Option.noConfusion hr
    have hne : db ≠ [] := by
      intro h; rw [h] at hne2; exact hne2 rfl
    unfold previousModel
    rw [hcur hne]
    show currentModel (removeOneByTs (db.getLast hne).timestamp db) = Except.ok r
    rw [removeOne_chain db hne hinc]
    have hchd : List.Chain' (fun a b : Song => a.timestamp < b.timestamp) db.dropLast :=
      hinc.prefix (List.dropLast_prefix db)
    rw [currentModel_chain db.dropLast hne2 hchd]
    rw [List.getLast?_eq_getLast db.dropLast hne2] at hr
    exact congrArg Except.ok (Option.some.inj hr)

/-- Witness for the C1 theorem on concrete logs of zero, one and two
records with increasing timestamps. -/
theorem storage_current_previous_spec_witness :
    currentModel [⟨1, "a", 5, 10, "ta"⟩, ⟨2, "b", 7, 20, "tb"⟩] =
      Except.ok ⟨2, "b", 7, 20, "tb"⟩ ∧
    previousModel [⟨1, "a", 5, 10, "ta"⟩, ⟨2, "b", 7, 20, "tb"⟩] =
      Except.ok ⟨1, "a", 5, 10, "ta"⟩ ∧
    currentModel [] = Except.error Error.sqlNoRows ∧
    previousModel [⟨1, "a", 5, 10, "ta"⟩] = Except.error Error.sqlNoRows := by
  have h := storage_current_previous_spec
    [⟨1, "a", 5, 10, "ta"⟩, ⟨2, "b", 7, 20, "tb"⟩]
    (List.chain'_cons.mpr ⟨by decide, List.chain'_singleton _⟩)
  have h0 := storage_current_previous_spec ([] : List Song) List.chain'_nil
  have h1 := storage_current_previous_spec [⟨1, "a", 5, 10, "ta"⟩] (List.chain'_singleton _)
  exact ⟨h.2.1 _ rfl, h.2.2.2 _ rfl, (h0.1 rfl).1, h1.2.2.1 rfl⟩

/-! ## Theorems: the percent encoder (claim C6) -/

theorem hexDigitsAux_small (fuel n : Nat) (h : n < 16) (hf : 1 ≤ fuel) :
    hexDigitsAux fuel n = [hexDigitChar n] := by
  cases fuel with
  | zero => omega
  | succ f => rw [hexDigitsAux, if_pos h]

theorem hexDigits_lt16 (n : Nat) (h : n < 16) : hexDigits n = [hexDigitChar n] :=
  hexDigitsAux_small (n + 1) n h (by omega)

theorem hexDigits_two_digits (n : Nat) (h16 : ¬ n < 16) (h256 : n < 256) :
    hexDigits n = [hexDigitChar (n / 16), hexDigitChar (n % 16)] := by
  rw [hexDigits, hexDigitsAux, if_neg h16]
  rw [hexDigitsAux_small n (n / 16) (by omega) (by omega)]
  rfl

theorem hexDigitChar_upper (n : Nat) (h : n < 16) :
    isUpperHexDigit (hexDigitChar n) = true := by
  revert h
  revert n
  decide

/-- A byte value renders as exactly two uppercase hexadecimal digits. -/
theorem fmt02X_two (n : Nat) (h : n < 256) :
    (fmt02X n).length = 2 ∧ (fmt02X n).all isUpperHexDigit = true := by
  by_cases h16 : n < 16
  · unfold fmt02X
    rw [hexDigits_lt16 n h16]
    simp [hexDigitChar_upper n h16]
    decide
  · have hdiv : n / 16 < 16 := by omega
    have hmod : n % 16 < 16 := Nat.mod_lt _ (by omega)
    have hd : hexDigits n = [hexDigitChar (n / 16), hexDigitChar (n % 16)] :=
      hexDigits_two_digits n h16 h
    unfold fmt02X
    rw [hd]
    simp [hexDigitChar_upper _ hdiv, hexDigitChar_upper _ hmod]

/-- The encoder's fold with an arbitrary accumulator is the accumulator
followed by the per-character renderings. -/
theorem encode_go : ∀ (l a : List Char),
    l.foldl
      (fun a ch => if isSafeChar ch then a ++ [ch] else a ++ '%' :: fmt02X ch.toNat) a
      = a ++ l.flatMap encodeCharSpec := by
  intro l
  induction l with
  | nil => intro a; simp
  | cons c s ih =>
    intro a
    rw [List.foldl_cons, List.flatMap_cons, ih]
    by_cases hc : isSafeChar c
    · rw [if_pos hc]
      show _ = a ++ (encodeCharSpec c ++ s.flatMap encodeCharSpec)
      rw [encodeCharSpec, if_pos hc, List.append_assoc]
    · rw [if_neg hc]
      show _ = a ++ (encodeCharSpec c ++ s.flatMap encodeCharSpec)
      rw [encodeCharSpec, if_neg hc, List.append_assoc]

/-- Rendering an all-safe string is the identity. -/
theorem safe_flatMap : ∀ (l : List Char), l.all isSafeChar = true →
    l.flatMap encodeCharSpec = l := by
  intro l
  induction l with
  | nil => intro _; rfl
  | cons c s ih =>
    intro h
    rw [List.all_cons, Bool.and_eq_true] at h
    rw [List.flatMap_cons, encodeCharSpec, if_pos h.1, ih h.2]
    rfl

/-- C6 counterexample: the encoder works on characters, not bytes.  The
euro sign, scalar value 0x20AC, renders as the five characters %20AC —
a percent sign followed by four hex digits, not two — instead of the
per-byte %E2%82%AC of its three-byte UTF-8 encoding that the claim
requires. -/
theorem encode_euro_counterexample :
    encode ['€'] = ['%', '2', '0', 'A', 'C'] ∧
    (encode ['€']).length = 5 ∧
    encode ['€'] ≠ ['%', 'E', '2', '%', '8', '2', '%', 'A', 'C'] := by
  refine ⟨?_, ?_, ?_⟩ <;> decide

/-- C6 (amended): the encoder renders the input character by character
(scalar values, not bytes): every safe character passes unchanged — so an
all-safe string encodes to itself, and re-encoding it is a no-op — and
every other character renders as a percent sign followed by the uppercase
hex digits of its scalar value, zero-padded to at least two digits; for
characters below 0x100 (in particular every unsafe ASCII byte) that is
exactly two uppercase hex digits. -/
theorem encode_per_char_spec :
    (∀ l : List Char, encode l = l.flatMap encodeCharSpec) ∧
    (∀ l : List Char, l.all isSafeChar = true → encode l = l) ∧
    (∀ c : Char, isSafeChar c = false → c.toNat < 256 →
      encodeCharSpec c = '%' :: fmt02X c.toNat ∧
      (fmt02X c.toNat).length = 2 ∧ (fmt02X c.toNat).all isUpperHexDigit = true) := by
  have h1 : ∀ l : List Char, encode l = l.flatMap encodeCharSpec := by
    intro l
    unfold encode
    rw [encode_go l []]
    rfl
  refine ⟨h1, ?_, ?_⟩
  · intro l h
    rw [h1 l, safe_flatMap l h]
  · intro c hc h256
    refine ⟨?_, fmt02X_two c.toNat h256⟩
    rw [encodeCharSpec, if_neg (by rw [hc]; exact Bool.false_ne_true)]

/-- Witness for the amended C6 theorem: a safe string is unchanged, and the
space character renders as two uppercase hex digits after the percent
sign. -/
theorem encode_per_char_spec_witness :
    encode ['a', 'b', '.'] = ['a', 'b', '.'] ∧
    encodeCharSpec ' ' = '%' :: fmt02X ' '.toNat ∧
    (fmt02X ' '.toNat).length = 2 ∧ (fmt02X ' '.toNat).all isUpperHexDigit = true :=
  ⟨encode_per_char_spec.2.1 ['a', 'b', '.'] (by decide),
   (encode_per_char_spec.2.2 ' ' (by decide) (by decide)).1,
   (encode_per_char_spec.2.2 ' ' (by decide) (by decide)).2⟩


/-! ## Theorems: the metadata fetcher (claims C7, C8) -/

/-- C7: a metadata response with a non-2xx status makes the fetch fail with
Error::HttpResponse carrying the numeric status and the server's reason
text, and the enclosing insert propagates that error and performs no write
to the log. -/
theorem fetch_non2xx_no_insert (db : List Song) (item : Item) (resp : HttpResp)
    (url : String) (vid : List Char)
    (hk : item.kind = ItemKind.youtube url)
    (hx : extractId url.toList = some vid)
    (hst : statusIsSuccess resp.status = false) :
    fetchModel resp = some (Except.error (Error.httpResponse resp.status resp.reason)) ∧
    insertModel db item resp =
      some (Except.error (Error.httpResponse resp.status resp.reason), db) := by
  have hf : fetchModel resp =
      some (Except.error (Error.httpResponse resp.status resp.reason)) := by
    unfold fetchModel
    rw [hst]
    rfl
  refine ⟨hf, ?_⟩
  simp only [insertModel, hk, hx, hf]

/-- Witness for the C7 theorem: status 404 with reason Not Found yields
exactly Error::HttpResponse 404 Not Found, and the log stays empty. -/
theorem fetch_non2xx_no_insert_witness :
    fetchModel ⟨404, "Not Found", none⟩ =
      some (Except.error (Error.httpResponse 404 "Not Found")) ∧
    insertModel [] ⟨ItemKind.youtube "https://youtu.be/dQw4w9WgXcQ", 10⟩
        ⟨404, "Not Found", none⟩ =
      some (Except.error (Error.httpResponse 404 "Not Found"), []) :=
  fetch_non2xx_no_insert [] ⟨ItemKind.youtube "https://youtu.be/dQw4w9WgXcQ", 10⟩
    ⟨404, "Not Found", none⟩ "https://youtu.be/dQw4w9WgXcQ" "dQw4w9WgXcQ".toList
    rfl (by decide) (by decide)

/-- C8 counterexample: a 2xx body that parses with a nonempty items array
need not make the fetch succeed — when the first item's duration string is
H, the duration decoder panics (see the C3 theorem), so serialize panics
instead of returning the title and decoded duration. -/
theorem serialize_panic_counterexample :
    serializeModel (some [("title", "H")]) = none := rfl

/-- C8 (amended): a body that does not parse as the expected shape fails
with Error::Serialize; a parsed body with an empty items array fails with
Error::InvalidYoutubeData, an error distinct from the transport and status
errors; and a parsed body with a first item whose duration the decoder
decodes without panicking makes the fetch succeed with the first item's
title and decoded duration (later items are ignored). -/
theorem serialize_taxonomy :
    serializeModel none = some (Except.error Error.serialize) ∧
    serializeModel (some []) = some (Except.error Error.invalidYoutubeData) ∧
    Error.invalidYoutubeData ≠ Error.httpClient ∧
    (∀ s r, Error.invalidYoutubeData ≠ Error.httpResponse s r) ∧
    (∀ (t d : String) (rest : List (String × String)) (n : Int),
      from_iso8601 d.toList = some n →
      serializeModel (some ((t, d) :: rest)) = some (Except.ok ⟨t, n⟩)) := by
  refine ⟨rfl, rfl, by decide, fun s r => by simp, ?_⟩
  intro t d rest n h
  simp only [serializeModel, List.head?_cons, h]

/-- Witness for the amended C8 theorem at a concrete one-item body. -/
theorem serialize_taxonomy_witness :
    serializeModel (some [("a title", "PT45S")]) =
      some (Except.ok ⟨"a title", 45⟩) :=
  serialize_taxonomy.2.2.2.2 "a title" "PT45S" [] 45 rfl

/-! ## Theorems: credential resolution (claim C9) and the insert
precondition (claim C10) -/

/-- C9 counterexample: the credential is not resolved at process start.
Startup completes with the API_KEY cell still uninitialized and without
halting — the environment variable is not even consulted — and a current()
request is then served while the credential is unresolved, which
contradicts both the resolved-at-start and the halts-before-serving parts
of the claim for an absent variable. -/
theorem api_key_not_resolved_at_startup :
    (startup initProc).keyCell = none ∧
    (startup initProc).halted = false ∧
    serveCurrentReq [⟨1, "v", 5, 10, "t"⟩] (startup initProc) =
      (Except.ok ⟨1, "v", 5, 10, "t"⟩, startup initProc) := by
  refine ⟨rfl, rfl, rfl⟩

/-- C9 (amended): the credential is resolved lazily, at the first
dereference of API_KEY inside a metadata fetch, not at process start:
startup leaves the Lazy cell untouched; the first dereference with the
variable absent reaches std::process::exit(1) at that point; the first
dereference with the variable present memoizes its value; and once
resolved, every later dereference returns the memoized value without
re-reading the environment — the credential is resolved at most once. -/
theorem api_key_lazy_once (env env2 : Option String) (st : Proc) :
    (startup st).keyCell = st.keyCell ∧
    (st.keyCell = none → env = none →
      forceApiKey env st = (none, ⟨none, true⟩)) ∧
    (∀ v, st.keyCell = none → env = some v →
      forceApiKey env st = (some v, ⟨some v, st.halted⟩)) ∧
    (∀ v st', forceApiKey env st = (some v, st') →
      forceApiKey env2 st' = (some v, st')) := by
  refine ⟨rfl, ?_, ?_, ?_⟩
  · intro hcell henv
    unfold forceApiKey
    rw [hcell, henv]
  · intro v hcell henv
    unfold forceApiKey
    rw [hcell, henv]
  · intro v st' h
    unfold forceApiKey at h
    cases hcell : st.keyCell with
    | some w =>
        rw [hcell] at h
        have hv : w = v := congrArg Prod.fst h |> Option.some.inj
        have hst : st = st' := congrArg Prod.snd h
        subst hv
        subst hst
        unfold forceApiKey
        rw [hcell]
    | none =>
        rw [hcell] at h
        cases henv : env with
        | none =>
            rw [henv] at h
            exact Option.noConfusion (congrArg Prod.fst h)
        | some w =>
            rw [henv] at h
            have hv : w = v := congrArg Prod.fst h |> Option.some.inj
            have hst : st' = ⟨some w, st.halted⟩ := (congrArg Prod.snd h).symm
            subst hv
            subst hst
            unfold forceApiKey
            rfl

/-- Witness for the amended C9 theorem: a first dereference resolves and
memoizes the credential, and a second dereference returns the memoized
value even with the variable gone. -/
theorem api_key_lazy_once_witness :
    forceApiKey (some "key") initProc = (some "key", ⟨some "key", false⟩) ∧
    forceApiKey none ⟨some "key", false⟩ = (some "key", ⟨some "key", false⟩) :=
  ⟨(api_key_lazy_once (some "key") none initProc).2.2.1 "key" rfl rfl,
   (api_key_lazy_once (some "key") none initProc).2.2.2 "key" ⟨some "key", false⟩
     ((api_key_lazy_once (some "key") none initProc).2.2.1 "key" rfl rfl)⟩

/-- C10: submitting an item whose kind is not the Youtube variant makes
Youtube::insert hit the unreachable! arm — a panic, not a typed error —
and insert produces a Result only when the kind is the Youtube variant. -/
theorem insert_non_youtube_panics (db : List Song) (item : Item) (resp : HttpResp) :
    (∀ p, item.kind = ItemKind.localFile p → insertModel db item resp = none) ∧
    (∀ r, insertModel db item resp = some r →
      ∃ url, item.kind = ItemKind.youtube url) := by
  constructor
  · intro p hk
    unfold insertModel
    rw [hk]
  · intro r hr
    cases hkind : item.kind with
    | localFile p =>
        unfold insertModel at hr
        rw [hkind] at hr
        exact Option.noConfusion hr
    | youtube url => exact ⟨url, rfl⟩

/-- Witness for the C10 theorem at a concrete local item. -/
theorem insert_non_youtube_panics_witness :
    insertModel [] ⟨ItemKind.localFile "song.mp3", 3⟩ ⟨200, "OK", none⟩ = none :=
  (insert_non_youtube_panics [] ⟨ItemKind.localFile "song.mp3", 3⟩ ⟨200, "OK", none⟩).1
    "song.mp3" rfl

end DonoServer
